import Mathlib

/-!
Verification of the ODE-VAE model core (src/models/vae.py) against its
natural-language specification.  Tensors of rationals stand in for the
floating-point tensors of the source: a 1-D tensor is a function
`Fin n → ℚ` (or a `List ℚ` where the source manipulates a sequence in
place), a 3-D tensor is `Fin T → Fin B → Fin F → ℚ`.  The exponential is
passed as an explicit function argument since the real exponential is not
computable; every property proved about it only uses values the genuine
exponential satisfies (such as `exp 0 = 1`).
-/

namespace ODEVAESpec

/-- Elementwise model of the statement `t[1:] = t[:-1] - t[1:]` from
`RNNEncoder.forward`: the right-hand side is evaluated on the old value of
`t`, so position `0` is unchanged and position `i+1` receives
`t[i] - t[i+1]`. -/
def stepSliceSub (t : List ℚ) : List ℚ :=
  match t with
  | [] => []
  | a :: rest => a :: List.zipWith (fun p q => p - q) (a :: rest) rest

/-- Model of the statement `t[0] = 0.` from `RNNEncoder.forward`. -/
def stepSetHeadZero (t : List ℚ) : List ℚ :=
  match t with
  | [] => []
  | _ :: rest => 0 :: rest

/-- The complete elapsed-time transform applied by `RNNEncoder.forward` to
(a clone of) the encoder time vector: first `t[1:] = t[:-1] - t[1:]`, then
`t[0] = 0.`. -/
def elapsedTransform (t : List ℚ) : List ℚ :=
  stepSetHeadZero (stepSliceSub t)

/-- Round to the nearest integer, ties to even — the rounding mode of
`torch.round`. -/
def roundEven (q : ℚ) : ℤ :=
  let f := ⌊q⌋
  let r := q - f
  if r < 1/2 then f
  else if 1/2 < r then f + 1
  else if f % 2 = 0 then f else f + 1

/-- One element of the `torch.where` expression inside `rounded_smape`:
zero where `|y_true| + |y_pred| = 0`, otherwise the rounded-numerator
quotient. -/
def roundedSmapeTerm (yt yp : ℚ) : ℚ :=
  if |yt| + |yp| = 0 then 0
  else |((roundEven yp : ℚ)) - ((roundEven yt : ℚ))| / (|yt| + |yp|)

/-- Model of `rounded_smape` from src/models/vae.py: the numerator rounds
both tensors to integers, the denominator is the unrounded
`|y_true| + |y_pred|` with the zero-sum guard, and the result is the plain
mean (note: no factor 200 in the source). -/
def rounded_smape (n : ℕ) (y_true y_pred : Fin n → ℚ) : ℚ :=
  (∑ i, roundedSmapeTerm (y_true i) (y_pred i)) / n

/-- One element of the `torch.where` expression inside `kaggle_smape`. -/
def kaggleSmapeTerm (yt yp : ℚ) : ℚ :=
  if |yt| + |yp| = 0 then 0 else |yp - yt| / (|yt| + |yp|)

/-- Model of `kaggle_smape` from src/models/vae.py:
`200 * mean(where(|y_true|+|y_pred| = 0, 0, |y_pred-y_true|/(|y_true|+|y_pred|)))`. -/
def kaggle_smape (n : ℕ) (y_true y_pred : Fin n → ℚ) : ℚ :=
  200 * ((∑ i, kaggleSmapeTerm (y_true i) (y_pred i)) / n)

/-- The elementwise denominator used by `differentiable_smape`:
`max(|y_true| + |y_pred| + epsilon, 0.5 + epsilon)`. -/
def dsmapeDenom (epsilon y_true y_pred : ℚ) : ℚ :=
  max (|y_true| + |y_pred| + epsilon) (1/2 + epsilon)

/-- Model of `differentiable_smape` from src/models/vae.py:
`mean(|y_pred - y_true| / max(|y_true|+|y_pred|+eps, 0.5+eps) * 2)`. -/
def differentiable_smape (n : ℕ) (y_true y_pred : Fin n → ℚ)
    (epsilon : ℚ := 1/10) : ℚ :=
  (∑ i, |y_pred i - y_true i| / dsmapeDenom epsilon (y_true i) (y_pred i) * 2) / n

/-- Concrete integer-valued tensors exhibiting the factor-200 gap between
`rounded_smape` and `kaggle_smape`. -/
def cYtrue : Fin 1 → ℚ := fun _ => 1

/-- Concrete integer-valued prediction tensor paired with `cYtrue`. -/
def cYpred : Fin 1 → ℚ := fun _ => 3

/-- Model of `vae_loss_function` from src/models/vae.py.  `x_p` and `x`
are (time, batch, feature) tensors, `mu` and `logvar` are (batch, latent)
tensors, and `z` is an arbitrary value the source never reads.  The
reconstruction term is `0.5 * ((x - x_p)**2).sum(-1).sum(0)` (features,
then time), the KL term is `-0.5 * sum(1 + logvar - mu**2 - exp(logvar), -1)`,
and `torch.mean` over the remaining batch axis is sum divided by `B`. -/
def vae_loss_function (T B F L : ℕ) (exp : ℚ → ℚ) {Zt : Type}
    (x_p x : Fin T → Fin B → Fin F → ℚ) (z : Zt)
    (mu logvar : Fin B → Fin L → ℚ) : ℚ :=
  let reconstruction_loss : Fin B → ℚ :=
    fun b => (1/2) * ∑ i : Fin T, ∑ f : Fin F, (x i b f - x_p i b f)^2
  let kl_loss : Fin B → ℚ :=
    fun b => -(1/2) * ∑ l : Fin L, (1 + logvar b l - (mu b l)^2 - exp (logvar b l))
  (∑ b : Fin B, (reconstruction_loss b + kl_loss b)) / B

/-- The spec's formula for the variational loss, written from the spec's
words for comparison with `vae_loss_function`: the batch-mean of a
reconstruction term (half the squared error summed over the feature axis
then the time axis) plus the KL-to-standard-normal term
`-0.5 * sum_over_latent_dims(1 + logvar - mu^2 - exp(logvar))`. -/
def variationalLossSpec (T B F L : ℕ) (exp : ℚ → ℚ)
    (x_hat x : Fin T → Fin B → Fin F → ℚ)
    (mu logvar : Fin B → Fin L → ℚ) : ℚ :=
  (∑ b : Fin B,
    ((1/2) * ∑ i : Fin T, ∑ f : Fin F, (x i b f - x_hat i b f)^2
      + (-(1/2)) * ∑ l : Fin L, (1 + logvar b l - (mu b l)^2 - exp (logvar b l)))) / B

/-- Abstract model of the `ODEVAE` composition: the encoder, the
reparameterization sampler and the decoder are opaque collaborators wired
together exactly as in `ODEVAE.forward`. -/
structure ODEVAEModel (X Te Td Lat Out : Type) where
  encode : X → Te → Lat × Lat
  reparameterize : Lat → Lat → Lat
  decode : Lat → Td → Out

/-- Model of `ODEVAE.forward` from src/models/vae.py: encode to
`(mu, logvar)`, take `z = mu` when `MAP` is true and `z = reparameterize
mu logvar` otherwise, decode `z` at the decoder times, and return
`(x_p, z, mu, logvar)`. -/
def ODEVAE.forward {X Te Td Lat Out : Type}
    (m : ODEVAEModel X Te Td Lat Out) (x : X) (t_encoder : Te)
    (t_decoder : Td) (MAP : Bool) : Out × Lat × Lat × Lat :=
  let p := m.encode x t_encoder
  let mu := p.1
  let logvar := p.2
  let z := if MAP then mu else m.reparameterize mu logvar
  (m.decode z t_decoder, z, mu, logvar)

/-- The two encoder variant names accepted by `RNNEncoder.__init__`
(spec names: dense-gated = gru, missing-aware = grud). -/
def allowedEncoderNames : List String := ["gru", "grud"]

/-- The payload of the `ValueError` raised by `RNNEncoder.__init__`
(InvalidConfiguration in the spec): it names the offending value and the
allowed set. -/
structure InvalidConfiguration where
  encoderSpecified : String
  allowedSet : List String
deriving DecidableEq

/-- The recurrent core selected by `RNNEncoder.__init__`. -/
inductive EncoderCore where
  | gru
  | grud
deriving DecidableEq

/-- Model of the constructor dispatch in `RNNEncoder.__init__`: a name in
the allowed set selects the corresponding recurrent core; any other name
raises synchronously with the offending value and the allowed set. -/
def RNNEncoder.init (encoder : String) : Except InvalidConfiguration EncoderCore :=
  if encoder = "gru" then Except.ok EncoderCore.gru
  else if encoder = "grud" then Except.ok EncoderCore.grud
  else Except.error ⟨encoder, allowedEncoderNames⟩

/-- Abstract model of `NeuralODEDecoder`: the ODE integration (over a 1-D
time vector, returning one latent state per query time) and the two linear
layers are opaque collaborators. -/
structure NeuralODEDecoderModel (Z H O : Type) (T : ℕ) where
  ode : Z → (Fin T → ℚ) → Fin T → Z
  l2h : Z → H
  h2o : H → O

/-- Model of `NeuralODEDecoder.forward` from src/models/vae.py: extract
the shared time axis `t_1d = t[:, 0, 0]` from the (time, batch, channel)
decoder time tensor, integrate from `z0` along it, and apply the two
layers pointwise along the trajectory.  The batch and channel sizes are
`B+1` and `K+1` since `t[:, 0, 0]` requires both to be nonempty. -/
def NeuralODEDecoder.forward {Z H O : Type} {T B K : ℕ}
    (m : NeuralODEDecoderModel Z H O T) (z0 : Z)
    (t : Fin T → Fin (B + 1) → Fin (K + 1) → ℚ) : Fin T → O :=
  let t_1d : Fin T → ℚ := fun i => t i 0 0
  let zs := m.ode z0 t_1d
  let hs := fun i => m.l2h (zs i)
  fun i => m.h2o (hs i)

/-- Concrete decoder model used to witness the shared-time-axis property. -/
def decWitnessModel : NeuralODEDecoderModel ℚ ℚ ℚ 2 :=
  ⟨fun z _ _ => z, fun z => z + 1, fun h => 2 * h⟩

/-- Concrete decoder time tensor, constant 3. -/
def decT1 : Fin 2 → Fin 2 → Fin 2 → ℚ := fun _ _ _ => 3

/-- Concrete decoder time tensor agreeing with `decT1` on the shared time
axis `[:, 0, 0]` but different elsewhere. -/
def decT2 : Fin 2 → Fin 2 → Fin 2 → ℚ :=
  fun _ b k => if b = 0 ∧ k = 0 then 3 else 7

/-- A heap of tensor cells, for the frame property of the encoder forward
pass: each cell holds a (1-D abstraction of a) tensor value, and Python
tensor variables are indices into the heap. -/
def heapAlloc (h : List (List ℚ)) (v : List ℚ) : List (List ℚ) × ℕ :=
  (h ++ [v], h.length)

/-- Read a heap cell. -/
def heapRead (h : List (List ℚ)) (r : ℕ) : List ℚ :=
  h.getD r []

/-- Overwrite a heap cell in place (the effect of an in-place tensor
update such as a slice assignment). -/
def heapWrite (h : List (List ℚ)) (r : ℕ) (v : List ℚ) : List (List ℚ) :=
  h.set r v

/-- Model of the storage effects of `RNNEncoder.forward` on the caller's
tensors `x` (at heap index `xr`) and `t` (at heap index `tr`):
`t = t.clone()` allocates a fresh cell, the in-place updates
`t[1:] = t[:-1] - t[1:]` and `t[0] = 0.` write only to that fresh cell,
and `torch.cat((x, t), dim=-1)` reads `x` and the clone and allocates a
new cell.  The remaining operations of the source (flip, the recurrent
core, the linear projection) only read their operands and produce fresh
tensors, so they are not modelled here.  Returns the final heap and the
index of the `xt` cell. -/
def RNNEncoder.forwardHeap (h : List (List ℚ)) (xr tr : ℕ) :
    List (List ℚ) × ℕ :=
  let a := heapAlloc h (heapRead h tr)
  let h1 := a.1
  let tLoc := a.2
  let h2 := heapWrite h1 tLoc (stepSliceSub (heapRead h1 tLoc))
  let h3 := heapWrite h2 tLoc (stepSetHeadZero (heapRead h2 tLoc))
  let b := heapAlloc h3 (heapRead h3 xr ++ heapRead h3 tLoc)
  (b.1, b.2)

/-- Concrete two-cell heap (an observation tensor and the time vector
`[0,1,3,6]`) used to witness the encoder frame property. -/
def cHeap : List (List ℚ) := [[5, 7], [0, 1, 3, 6]]

end ODEVAESpec

namespace ODEVAESpec

/-- Indexing the elementwise subtraction `List.zipWith (· - ·)`. -/
theorem zipWith_sub_getD (u v : List ℚ) (i : ℕ) (hu : i < u.length)
    (hv : i < v.length) :
    (List.zipWith (fun p q => p - q) u v).getD i 0 = u.getD i 0 - v.getD i 0 := by
  induction u generalizing v i with
  | nil => simp at hu
  | cons a u ih =>
    cases v with
    | nil => simp at hv
    | cons b v =>
      cases i with
      | zero => simp [List.getD_cons_zero]
      | succ i =>
        simp only [List.length_cons, Nat.succ_lt_succ_iff] at hu hv
        simpa [List.getD_cons_succ] using ih v i hu hv

/-- Indexing `stepSliceSub`: position 0 is unchanged and position `i+1`
holds `t[i] - t[i+1]`. -/
theorem stepSliceSub_getD (t : List ℚ) :
    (stepSliceSub t).getD 0 0 = t.getD 0 0 ∧
    ∀ i : ℕ, i + 1 < t.length →
      (stepSliceSub t).getD (i + 1) 0 = t.getD i 0 - t.getD (i + 1) 0 := by
  constructor
  · cases t with
    | nil => rfl
    | cons a rest => rfl
  · intro i hi
    cases t with
    | nil => simp at hi
    | cons a rest =>
      simp only [List.length_cons] at hi
      have hu : i < (a :: rest).length := by simp only [List.length_cons]; omega
      have hv : i < rest.length := by omega
      simp only [stepSliceSub, List.getD_cons_succ]
      rw [zipWith_sub_getD (a :: rest) rest i hu hv]

/-- Length is preserved by `stepSliceSub`. -/
theorem stepSliceSub_length (t : List ℚ) :
    (stepSliceSub t).length = t.length := by
  cases t with
  | nil => rfl
  | cons a rest =>
    simp only [stepSliceSub, List.length_cons, List.length_zipWith]
    omega

/-- Length is preserved by `stepSetHeadZero`. -/
theorem stepSetHeadZero_length (t : List ℚ) :
    (stepSetHeadZero t).length = t.length := by
  cases t <;> rfl

/-- Rounding ties-to-even is the identity on integers. -/
theorem roundEven_intCast (k : ℤ) : roundEven (k : ℚ) = k := by
  simp [roundEven, Int.floor_intCast]

/-- C1: the encoder's elapsed-time transform keeps the length, sets
position 0 to `0`, sets position `i` (for `1 ≤ i < n`) to
`old_t[i-1] - old_t[i]`, and maps `[0,1,3,6]` to `[0,-1,-2,-3]`. -/
theorem c1_encoder_time_transform (t : List ℚ) (ht : t ≠ []) :
    (elapsedTransform t).length = t.length ∧
    (elapsedTransform t).getD 0 0 = 0 ∧
    (∀ i : ℕ, 1 ≤ i → i < t.length →
      (elapsedTransform t).getD i 0 = t.getD (i - 1) 0 - t.getD i 0) ∧
    elapsedTransform [0, 1, 3, 6] = [0, -1, -2, -3] := by
  refine ⟨?_, ?_, ?_, by norm_num [elapsedTransform, stepSliceSub, stepSetHeadZero]⟩
  · rw [elapsedTransform, stepSetHeadZero_length, stepSliceSub_length]
  · cases t with
    | nil => exact absurd rfl ht
    | cons a rest =>
      show (stepSetHeadZero (a :: List.zipWith (fun p q => p - q) (a :: rest) rest)).getD 0 0 = 0
      rfl
  · intro i h1 hi
    obtain ⟨j, rfl⟩ : ∃ j, i = j + 1 := ⟨i - 1, by omega⟩
    cases t with
    | nil => exact absurd rfl ht
    | cons a rest =>
      have hstep := (stepSliceSub_getD (a :: rest)).2 j hi
      have hsame : (elapsedTransform (a :: rest)).getD (j + 1) 0 =
          (stepSliceSub (a :: rest)).getD (j + 1) 0 := by
        show (stepSetHeadZero (a :: List.zipWith (fun p q => p - q) (a :: rest) rest)).getD (j+1) 0 =
          (a :: List.zipWith (fun p q => p - q) (a :: rest) rest).getD (j+1) 0
        rfl
      rw [hsame, hstep]
      simp

/-- Witness for C1 at the concrete spec input `[0,1,3,6]`. -/
theorem c1_encoder_time_transform_witness :
    ([(0:ℚ), 1, 3, 6] ≠ []) ∧
    elapsedTransform [(0:ℚ), 1, 3, 6] = [0, -1, -2, -3] :=
  ⟨by decide, (c1_encoder_time_transform [0, 1, 3, 6] (by decide)).2.2.2⟩

/-- C4 counterexample: on the integer-valued tensors `[1]` and `[3]`,
`rounded_smape` returns `1/2` while `kaggle_smape` returns `100` — the two
functions do not agree on integer-valued inputs. -/
theorem c4_counterexample :
    (cYtrue 0 = ((1 : ℤ) : ℚ) ∧ cYpred 0 = ((3 : ℤ) : ℚ)) ∧
    rounded_smape 1 cYtrue cYpred = 1/2 ∧
    kaggle_smape 1 cYtrue cYpred = 100 ∧
    rounded_smape 1 cYtrue cYpred ≠ kaggle_smape 1 cYtrue cYpred := by
  refine ⟨⟨by norm_num [cYtrue], by norm_num [cYpred]⟩, ?_, ?_, ?_⟩ <;>
    norm_num [rounded_smape, kaggle_smape, roundedSmapeTerm, kaggleSmapeTerm,
      roundEven, cYtrue, cYpred, Fin.sum_univ_one]

/-- C4 amended: on integer-valued tensors `kaggle_smape` equals `200 *
rounded_smape` — the two metrics agree up to the factor 200 that
`rounded_smape` omits. -/
theorem c4_rounded_vs_kaggle_smape (n : ℕ) (y_true y_pred : Fin n → ℚ)
    (ht : ∀ i, ∃ k : ℤ, y_true i = (k : ℚ))
    (hp : ∀ i, ∃ k : ℤ, y_pred i = (k : ℚ)) :
    kaggle_smape n y_true y_pred = 200 * rounded_smape n y_true y_pred := by
  unfold kaggle_smape rounded_smape
  congr 2
  refine Finset.sum_congr rfl (fun i _ => ?_)
  obtain ⟨k1, hk1⟩ := ht i
  obtain ⟨k2, hk2⟩ := hp i
  rw [hk1, hk2]
  unfold kaggleSmapeTerm roundedSmapeTerm
  rw [roundEven_intCast, roundEven_intCast]

/-- Witness for the amended C4 on the integer-valued pair `([1],[3])`. -/
theorem c4_rounded_vs_kaggle_smape_witness :
    (∀ i, ∃ k : ℤ, cYtrue i = (k : ℚ)) ∧ (∀ i, ∃ k : ℤ, cYpred i = (k : ℚ)) ∧
    kaggle_smape 1 cYtrue cYpred = 200 * rounded_smape 1 cYtrue cYpred :=
  ⟨fun _ => ⟨1, by norm_num [cYtrue]⟩, fun _ => ⟨3, by norm_num [cYpred]⟩,
    c4_rounded_vs_kaggle_smape 1 cYtrue cYpred
      (fun _ => ⟨1, by norm_num [cYtrue]⟩) (fun _ => ⟨3, by norm_num [cYpred]⟩)⟩

/-- C5: `kaggle_smape(y, y) = 0` for every nonempty tensor `y`, including
all-zero `y` — each element contributes 0, either through the zero-sum
guard or because the numerator `|y - y|` vanishes. -/
theorem c5_kaggle_smape_self (n : ℕ) (y : Fin n → ℚ) (_hn : 0 < n) :
    kaggle_smape n y y = 0 := by
  unfold kaggle_smape
  have hterm : ∀ i : Fin n, kaggleSmapeTerm (y i) (y i) = 0 := by
    intro i
    unfold kaggleSmapeTerm
    simp
  rw [Finset.sum_congr rfl (fun i _ => hterm i)]
  simp

/-- Witness for C5 on the all-zero one-element tensor. -/
theorem c5_kaggle_smape_self_witness :
    0 < 1 ∧ kaggle_smape 1 (fun _ => (0:ℚ)) (fun _ => (0:ℚ)) = 0 :=
  ⟨Nat.one_pos, c5_kaggle_smape_self 1 (fun _ => (0:ℚ)) Nat.one_pos⟩

/-- C10: the elementwise denominator of `differentiable_smape` is at least
`1/2`, hence strictly positive and nonzero, whenever `epsilon ≥ 0`; the
division in `differentiable_smape` is never a division by zero. -/
theorem c10_dsmape_denominator_positive (n : ℕ) (y_true y_pred : Fin n → ℚ)
    (epsilon : ℚ) (heps : 0 ≤ epsilon) :
    ∀ i : Fin n,
      1/2 ≤ dsmapeDenom epsilon (y_true i) (y_pred i) ∧
      0 < dsmapeDenom epsilon (y_true i) (y_pred i) ∧
      dsmapeDenom epsilon (y_true i) (y_pred i) ≠ 0 := by
  intro i
  have hle : (1:ℚ)/2 ≤ dsmapeDenom epsilon (y_true i) (y_pred i) := by
    refine le_trans ?_ (le_max_right _ _)
    linarith
  exact ⟨hle, lt_of_lt_of_le (by norm_num) hle,
    ne_of_gt (lt_of_lt_of_le (by norm_num) hle)⟩

/-- Witness for C10 at `epsilon = 0`, `y_true = [1]`, `y_pred = [2]`. -/
theorem c10_dsmape_denominator_positive_witness :
    (0:ℚ) ≤ 0 ∧
    (1/2 ≤ dsmapeDenom 0 1 2 ∧ 0 < dsmapeDenom 0 1 2 ∧ dsmapeDenom 0 1 2 ≠ 0) :=
  ⟨le_refl 0,
    c10_dsmape_denominator_positive 1 (fun _ => 1) (fun _ => 2) 0 (le_refl 0) 0⟩

/-- C2: the code's variational loss agrees with the spec's formula
(batch-mean of half the squared error summed over features then time plus
the KL term), and it is exactly 0 when `x = x_hat`, `mu = 0`, `logvar = 0`
(using `exp 0 = 1`). -/
theorem c2_variational_loss (T B F L : ℕ) (exp : ℚ → ℚ) {Zt : Type}
    (x_p x : Fin T → Fin B → Fin F → ℚ) (z : Zt)
    (mu logvar : Fin B → Fin L → ℚ) :
    vae_loss_function T B F L exp x_p x z mu logvar =
      variationalLossSpec T B F L exp x_p x mu logvar ∧
    (exp 0 = 1 →
      vae_loss_function T B F L exp x x z (fun _ _ => 0) (fun _ _ => 0) = 0) := by
  constructor
  · rfl
  · intro hexp
    simp [vae_loss_function, hexp]

/-- Witness for C2's zero-loss case at concrete sizes 1,1,1,1 with the
constant-one stand-in for the exponential (which satisfies `exp 0 = 1`). -/
theorem c2_variational_loss_witness :
    ((fun _ : ℚ => (1:ℚ)) 0 = 1) ∧
    vae_loss_function 1 1 1 1 (fun _ : ℚ => (1:ℚ))
      (fun _ _ _ => (0:ℚ)) (fun _ _ _ => (0:ℚ)) ()
      (fun _ _ => 0) (fun _ _ => 0) = 0 :=
  ⟨rfl,
    (c2_variational_loss 1 1 1 1 (fun _ : ℚ => (1:ℚ))
      (fun _ _ _ => (0:ℚ)) (fun _ _ _ => (0:ℚ)) ()
      (fun _ _ => 0) (fun _ _ => 0)).2 rfl⟩

/-- C3: with `MAP = true`, `ODEVAE.forward` returns `z` equal to the
encoder's `mu`, and the decoder is applied to that `mu` — sampling is
bypassed. -/
theorem c3_map_bypasses_sampling {X Te Td Lat Out : Type}
    (m : ODEVAEModel X Te Td Lat Out) (x : X) (t_encoder : Te)
    (t_decoder : Td) :
    (ODEVAE.forward m x t_encoder t_decoder true).2.1 =
      (m.encode x t_encoder).1 ∧
    (ODEVAE.forward m x t_encoder t_decoder true).1 =
      m.decode (m.encode x t_encoder).1 t_decoder :=
  ⟨rfl, rfl⟩

/-- C6: constructing the encoder with a name outside the allowed set
yields the InvalidConfiguration error carrying the offending value and the
allowed set; a name in the allowed set constructs a core without error. -/
theorem c6_invalid_encoder_configuration (e : String) :
    (e ∉ allowedEncoderNames →
      RNNEncoder.init e =
        Except.error ⟨e, allowedEncoderNames⟩) ∧
    (e ∈ allowedEncoderNames →
      ∃ core, RNNEncoder.init e = Except.ok core) := by
  constructor
  · intro hne
    have h1 : e ≠ "gru" := fun h => hne (by simp [allowedEncoderNames, h])
    have h2 : e ≠ "grud" := fun h => hne (by simp [allowedEncoderNames, h])
    simp [RNNEncoder.init, h1, h2]
  · intro hmem
    simp only [allowedEncoderNames, List.mem_cons, List.mem_singleton,
      List.not_mem_nil, or_false] at hmem
    rcases hmem with h | h <;> subst h
    · exact ⟨EncoderCore.gru, by simp [RNNEncoder.init]⟩
    · exact ⟨EncoderCore.grud, by simp [RNNEncoder.init]⟩

/-- Witness for C6 on the rejected name "bogus" and the accepted name
"gru". -/
theorem c6_invalid_encoder_configuration_witness :
    ("bogus" ∉ allowedEncoderNames ∧
      RNNEncoder.init "bogus" =
        Except.error ⟨"bogus", allowedEncoderNames⟩) ∧
    ("gru" ∈ allowedEncoderNames ∧
      ∃ core, RNNEncoder.init "gru" = Except.ok core) :=
  ⟨⟨by decide, (c6_invalid_encoder_configuration "bogus").1 (by decide)⟩,
   ⟨by decide, (c6_invalid_encoder_configuration "gru").2 (by decide)⟩⟩

/-- C7: the decoder output depends on the decoder time tensor only through
the shared time axis `t[:, 0, 0]` — two time tensors agreeing there
produce identical outputs for every latent sample. -/
theorem c7_decoder_shared_time_axis {Z H O : Type} {T B K : ℕ}
    (m : NeuralODEDecoderModel Z H O T) (z0 : Z)
    (t1 t2 : Fin T → Fin (B + 1) → Fin (K + 1) → ℚ)
    (hshared : ∀ i, t1 i 0 0 = t2 i 0 0) :
    NeuralODEDecoder.forward m z0 t1 = NeuralODEDecoder.forward m z0 t2 := by
  unfold NeuralODEDecoder.forward
  rw [funext hshared]

/-- Witness for C7 on two concrete time tensors that agree on `[:, 0, 0]`
but differ elsewhere. -/
theorem c7_decoder_shared_time_axis_witness :
    (∀ i, decT1 i 0 0 = decT2 i 0 0) ∧
    NeuralODEDecoder.forward decWitnessModel 1 decT1 =
      NeuralODEDecoder.forward decWitnessModel 1 decT2 :=
  ⟨by decide,
    c7_decoder_shared_time_axis decWitnessModel 1 decT1 decT2 (by decide)⟩

/-- C8: the variational loss never reads its `z` argument — any two values
(of any types) give the same loss. -/
theorem c8_loss_independent_of_z (T B F L : ℕ) (exp : ℚ → ℚ)
    {Z1 Z2 : Type} (x_p x : Fin T → Fin B → Fin F → ℚ)
    (z1 : Z1) (z2 : Z2) (mu logvar : Fin B → Fin L → ℚ) :
    vae_loss_function T B F L exp x_p x z1 mu logvar =
      vae_loss_function T B F L exp x_p x z2 mu logvar :=
  rfl

/-- Reading past an append at an index inside the left part. -/
theorem heapRead_append_left (h l : List (List ℚ)) (r : ℕ)
    (hr : r < h.length) : heapRead (h ++ l) r = heapRead h r := by
  unfold heapRead
  rw [List.getD_eq_getElem?_getD, List.getD_eq_getElem?_getD,
    List.getElem?_append_left hr]

/-- Reading the freshly allocated cell. -/
theorem heapRead_alloc_cell (h : List (List ℚ)) (v : List ℚ) :
    heapRead (h ++ [v]) h.length = v := by
  unfold heapRead
  rw [List.getD_eq_getElem?_getD, List.getElem?_concat_length]
  rfl

/-- A write to one cell leaves every other cell unchanged. -/
theorem heapRead_write_ne (h : List (List ℚ)) (i r : ℕ) (v : List ℚ)
    (hne : i ≠ r) : heapRead (heapWrite h i v) r = heapRead h r := by
  unfold heapRead heapWrite
  rw [List.getD_eq_getElem?_getD, List.getD_eq_getElem?_getD,
    List.getElem?_set_ne hne]

/-- Reading back a written cell. -/
theorem heapRead_write_self (h : List (List ℚ)) (i : ℕ) (v : List ℚ)
    (hi : i < h.length) : heapRead (heapWrite h i v) i = v := by
  unfold heapRead heapWrite
  rw [List.getD_eq_getElem?_getD, List.getElem?_set_self hi]
  rfl

/-- C9: the encoder forward pass leaves the caller's `x` and `t` cells
untouched — all in-place updates go to the fresh clone of `t`, which ends
up holding the elapsed-time transform of the original `t`. -/
theorem c9_encoder_forward_frame (h : List (List ℚ)) (xr tr : ℕ)
    (hx : xr < h.length) (ht : tr < h.length) :
    heapRead (RNNEncoder.forwardHeap h xr tr).1 xr = heapRead h xr ∧
    heapRead (RNNEncoder.forwardHeap h xr tr).1 tr = heapRead h tr ∧
    heapRead (RNNEncoder.forwardHeap h xr tr).1 h.length =
      elapsedTransform (heapRead h tr) := by
  have hne_x : h.length ≠ xr := Nat.ne_of_gt hx
  have hne_t : h.length ≠ tr := Nat.ne_of_gt ht
  have hlt1 : h.length < (h ++ [heapRead h tr]).length := by
    simp
  have e1 : heapRead (h ++ [heapRead h tr]) h.length = heapRead h tr :=
    heapRead_alloc_cell h _
  simp only [RNNEncoder.forwardHeap, heapAlloc]
  rw [e1]
  rw [heapRead_write_self _ _ _ hlt1]
  have hlt2 : h.length <
      (heapWrite (h ++ [heapRead h tr]) h.length
        (stepSliceSub (heapRead h tr))).length := by
    simp [heapWrite]
  rw [heapRead_write_self _ _ _ hlt2]
  have hlt3 : xr <
      (heapWrite (heapWrite (h ++ [heapRead h tr]) h.length
          (stepSliceSub (heapRead h tr))) h.length
        (stepSetHeadZero (stepSliceSub (heapRead h tr)))).length := by
    simp [heapWrite]
    omega
  have hlt4 : tr <
      (heapWrite (heapWrite (h ++ [heapRead h tr]) h.length
          (stepSliceSub (heapRead h tr))) h.length
        (stepSetHeadZero (stepSliceSub (heapRead h tr)))).length := by
    simp [heapWrite]
    omega
  have hlt5 : h.length <
      (heapWrite (heapWrite (h ++ [heapRead h tr]) h.length
          (stepSliceSub (heapRead h tr))) h.length
        (stepSetHeadZero (stepSliceSub (heapRead h tr)))).length := by
    simp [heapWrite]
  refine ⟨?_, ?_, ?_⟩
  · rw [heapRead_append_left _ _ _ hlt3, heapRead_write_ne _ _ _ _ hne_x,
      heapRead_write_ne _ _ _ _ hne_x, heapRead_append_left _ _ _ hx]
  · rw [heapRead_append_left _ _ _ hlt4, heapRead_write_ne _ _ _ _ hne_t,
      heapRead_write_ne _ _ _ _ hne_t, heapRead_append_left _ _ _ ht]
  · rw [heapRead_append_left _ _ _ hlt5, heapRead_write_self _ _ _ hlt2]
    rfl

/-- Witness for C9 on the concrete heap `cHeap`. -/
theorem c9_encoder_forward_frame_witness :
    (0 < cHeap.length ∧ 1 < cHeap.length) ∧
    (heapRead (RNNEncoder.forwardHeap cHeap 0 1).1 0 = heapRead cHeap 0 ∧
     heapRead (RNNEncoder.forwardHeap cHeap 0 1).1 1 = heapRead cHeap 1 ∧
     heapRead (RNNEncoder.forwardHeap cHeap 0 1).1 cHeap.length =
       elapsedTransform (heapRead cHeap 1)) :=
  ⟨⟨by norm_num [cHeap], by norm_num [cHeap]⟩,
    c9_encoder_forward_frame cHeap 0 1 (by norm_num [cHeap])
      (by norm_num [cHeap])⟩

end ODEVAESpec
